import Mathlib

/-!
Verification of the multi-column comparator, filter, hash group-by and join
engines of this columnar data-processing library, against a shallow embedding
of the C++ sources.

Embedding conventions:
* machine integers (int8_t .. int64_t) are modelled as Int: the engine only
  compares them, never computes with them, so in-range values behave
  identically;
* IEEE float and double values are modelled as Option Rat, where none stands
  for NaN: the engine only applies the relational operators to them, and on
  non-NaN values those agree with the rational order, while every relational
  comparison involving a NaN is false and inequality involving a NaN is true;
* device arrays become Lists; bit-packed validity masks become List Bool;
  a null mask pointer becomes none;
* thrust and moderngpu library calls are embedded by their documented
  sequential semantics (copy_if is a stable filter, sorted_search computes
  vectorized lower and upper bounds).
-/

/-- Runtime column type tags.  The enum itself (gdf/cffi/types.h) is not part
of the sources at hand; the constructor set is the legacy libgdf enumeration,
of which the six tags GDF_INT8 .. GDF_FLOAT64 are the ones named by the switch
in LesserRTTI::type_dispatcher (sqls_rtti_comp.hpp). -/
inductive GdfDtype where
  | GDF_invalid
  | GDF_INT8
  | GDF_INT16
  | GDF_INT32
  | GDF_INT64
  | GDF_FLOAT32
  | GDF_FLOAT64
  | GDF_DATE32
  | GDF_DATE64
  | GDF_TIMESTAMP
  | GDF_CATEGORY
  | GDF_STRING
deriving DecidableEq, Repr

/-- A cell value: a machine integer, or an IEEE floating value where
GdfValue.float none models NaN. -/
inductive GdfValue where
  | int (v : Int)
  | float (v : Option ℚ)
deriving DecidableEq, Repr

namespace GdfValue

/-- The C++ relational operator res1 < res2: ordinary order on integers and
on non-NaN floats; every comparison involving NaN is false. -/
def vlt : GdfValue → GdfValue → Bool
  | .int a, .int b => a < b
  | .float (some a), .float (some b) => a < b
  | _, _ => false

/-- The C++ relational operator res1 > res2. -/
def vgt : GdfValue → GdfValue → Bool
  | .int a, .int b => b < a
  | .float (some a), .float (some b) => b < a
  | _, _ => false

/-- The C++ operator res1 == res2: false whenever a NaN is involved. -/
def veq : GdfValue → GdfValue → Bool
  | .int a, .int b => a == b
  | .float (some a), .float (some b) => a == b
  | _, _ => false

/-- The C++ operator res1 != res2, the exact complement of ==, hence true
whenever a NaN is involved. -/
def vne (a b : GdfValue) : Bool := !(veq a b)

/-- True exactly on the NaN model value. -/
def isNaN : GdfValue → Bool
  | .float none => true
  | _ => false

end GdfValue

open GdfValue

/-- The three-valued comparison outcome, LesserRTTI::State
(sqls_rtti_comp.hpp line 251). -/
inductive State where
  | False
  | True
  | Undecided
deriving DecidableEq, Repr

/-- One type-erased column as seen by LesserRTTI: its runtime tag from
rtti_, its data array from columns_, and its validity mask pointer from
valids_ (none models a null mask pointer). -/
structure ColumnRef where
  dtype : GdfDtype
  data : List GdfValue
  valid : Option (List Bool)
deriving Repr

/-- LesserRTTI::at: read the element of a column at a row.  Out-of-range
reads are undefined behaviour in the C++; the model returns int 0. -/
def colAt (c : ColumnRef) (row : Nat) : GdfValue :=
  c.data.getD row (GdfValue.int 0)

/-- gdf_is_valid (cudf_utils.h): a null mask pointer means every row is
valid, otherwise read bit row of the mask.  Bit packing is modelled by a
List Bool read with List.getD. -/
def is_valid (c : ColumnRef) (row : Nat) : Bool :=
  match c.valid with
  | none => true
  | some m => m.getD row true

/-- LesserRTTI::OpLess applied to the two fetched values
(sqls_rtti_comp.hpp lines 253-287). -/
def OpLess (res1 res2 : GdfValue) : State :=
  if vlt res1 res2 then State.True
  else if veq res1 res2 then State.Undecided
  else State.False

/-- LesserRTTI::OpGreater applied to the two fetched values
(sqls_rtti_comp.hpp lines 334-362). -/
def OpGreater (res1 res2 : GdfValue) : State :=
  if vgt res1 res2 then State.True
  else if veq res1 res2 then State.Undecided
  else State.False

/-- LesserRTTI::OpEqual applied to the two fetched values
(sqls_rtti_comp.hpp lines 410-437). -/
def OpEqual (res1 res2 : GdfValue) : State :=
  if vne res1 res2 then State.False
  else State.Undecided

/-- LesserRTTI::OpEqualV applied to the fetched row value and the target
value of the column (sqls_rtti_comp.hpp lines 439-463). -/
def OpEqualV (res1 res2 : GdfValue) : State :=
  if vne res1 res2 then State.False
  else State.Undecided

/-- LesserRTTI::OpLess_with_nulls (sqls_rtti_comp.hpp lines 288-332),
branch for branch. -/
def OpLess_with_nulls (res1 res2 : GdfValue) (isValid1 isValid2 : Bool)
    (nulls_are_smallest : Bool) : State :=
  if !isValid2 && !isValid1 then State.Undecided
  else if isValid1 && isValid2 then
    (if vlt res1 res2 then State.True
     else if veq res1 res2 then State.Undecided
     else State.False)
  else if !isValid1 && nulls_are_smallest then State.True
  else if !isValid2 && !nulls_are_smallest then State.True
  else State.False

/-- LesserRTTI::OpGreater_with_nulls (sqls_rtti_comp.hpp lines 364-408),
branch for branch. -/
def OpGreater_with_nulls (res1 res2 : GdfValue) (isValid1 isValid2 : Bool)
    (nulls_are_smallest : Bool) : State :=
  if !isValid2 && !isValid1 then State.Undecided
  else if isValid1 && isValid2 then
    (if vgt res1 res2 then State.True
     else if veq res1 res2 then State.Undecided
     else State.False)
  else if !isValid1 && nulls_are_smallest then State.False
  else if !isValid2 && !nulls_are_smallest then State.False
  else State.True

/-- The tags handled by the switch in LesserRTTI::type_dispatcher
(sqls_rtti_comp.hpp lines 466-519): exactly GDF_INT8, GDF_INT16, GDF_INT32,
GDF_INT64, GDF_FLOAT32, GDF_FLOAT64. -/
def supported_dtype : GdfDtype → Bool
  | .GDF_INT8 => true
  | .GDF_INT16 => true
  | .GDF_INT32 => true
  | .GDF_INT64 => true
  | .GDF_FLOAT32 => true
  | .GDF_FLOAT64 => true
  | _ => false

/-- LesserRTTI::type_dispatcher (sqls_rtti_comp.hpp lines 466-519): each of
the six supported tags invokes the predicate on the values read at the rows;
the default branch executes assert(false) — a no-op when assertions are
disabled — and falls through to return State::Undecided. -/
def type_dispatcher (pred : GdfValue → GdfValue → State) (c : ColumnRef)
    (row1 row2 : Nat) : State :=
  if supported_dtype c.dtype then pred (colAt c row1) (colAt c row2)
  else State.Undecided

/-- LesserRTTI::type_dispatcher_with_nulls (sqls_rtti_comp.hpp lines
521-574): as type_dispatcher, additionally passing the validity bits; the
default branch likewise asserts and returns State::Undecided. -/
def type_dispatcher_with_nulls
    (pred : GdfValue → GdfValue → Bool → Bool → State) (c : ColumnRef)
    (row1 row2 : Nat) : State :=
  if supported_dtype c.dtype then
    pred (colAt c row1) (colAt c row2) (is_valid c row1) (is_valid c row2)
  else State.Undecided

/-- Dispatch of OpEqualV: the row value is read from the column, the target
value comes from the vals_ array (sqls_rtti_comp.hpp lines 439-463). -/
def type_dispatcher_v (c : ColumnRef) (target : GdfValue) (row : Nat) : State :=
  if supported_dtype c.dtype then OpEqualV (colAt c row) target
  else State.Undecided

/-- The column loop of LesserRTTI::equal (sqls_rtti_comp.hpp lines 175-194):
State::False short-circuits to not-equal, True and Undecided continue; all
columns exhausted means equal.  The C++ iterates col_index over parallel
arrays; the model recurses over the list of columns. -/
def equalLoop : List ColumnRef → Nat → Nat → Bool
  | [], _, _ => true
  | c :: rest, row1, row2 =>
    match type_dispatcher OpEqual c row1 row2 with
    | State.False => false
    | State.True => equalLoop rest row1 row2
    | State.Undecided => equalLoop rest row1 row2

/-- The column loop of LesserRTTI::less (sqls_rtti_comp.hpp lines 217-236):
the first decisive column returns, Undecided continues, exhaustion returns
false. -/
def lessLoop : List ColumnRef → Nat → Nat → Bool
  | [], _, _ => false
  | c :: rest, row1, row2 =>
    match type_dispatcher OpLess c row1 row2 with
    | State.False => false
    | State.True => true
    | State.Undecided => lessLoop rest row1 row2

/-- The column loop of LesserRTTI::equal_v (sqls_rtti_comp.hpp lines
196-215), over columns paired with their target values. -/
def equalVLoop : List (ColumnRef × GdfValue) → Nat → Bool
  | [], _ => true
  | (c, v) :: rest, row =>
    match type_dispatcher_v c v row with
    | State.False => false
    | State.True => equalVLoop rest row
    | State.Undecided => equalVLoop rest row

/-- The column loop of LesserRTTI::asc_desc_comparison (sqls_rtti_comp.hpp
lines 104-139), over columns paired with their ascending flag: an ascending
column dispatches OpLess, a descending one OpGreater. -/
def asc_desc_loop : List (ColumnRef × Bool) → Nat → Nat → Bool
  | [], _, _ => false
  | (c, asc) :: rest, row1, row2 =>
    match (if asc then type_dispatcher OpLess c row1 row2
           else type_dispatcher OpGreater c row1 row2) with
    | State.False => false
    | State.True => true
    | State.Undecided => asc_desc_loop rest row1 row2

/-- The column loop of LesserRTTI::asc_desc_comparison_with_nulls
(sqls_rtti_comp.hpp lines 141-173). -/
def asc_desc_with_nulls_loop (nulls_are_smallest : Bool) :
    List (ColumnRef × Bool) → Nat → Nat → Bool
  | [], _, _ => false
  | (c, asc) :: rest, row1, row2 =>
    match (if asc then
             type_dispatcher_with_nulls
               (fun r1 r2 v1 v2 => OpLess_with_nulls r1 r2 v1 v2 nulls_are_smallest)
               c row1 row2
           else
             type_dispatcher_with_nulls
               (fun r1 r2 v1 v2 => OpGreater_with_nulls r1 r2 v1 v2 nulls_are_smallest)
               c row1 row2) with
    | State.False => false
    | State.True => true
    | State.Undecided => asc_desc_with_nulls_loop nulls_are_smallest rest row1 row2

/-- The state LesserRTTI carries (sqls_rtti_comp.hpp lines 34-102, 572-579):
the columns (data, tags, validity masks, modelled as one list of records in
place of the parallel arrays columns_, rtti_, valids_), the filter target
values vals_, the ascending flags asc_desc_flags_ (none models a null
pointer, meaning every column ascending), and nulls_are_smallest_. -/
structure LesserRTTI where
  cols : List ColumnRef
  vals : List GdfValue
  asc_desc_flags : Option (List Bool)
  nulls_are_smallest : Bool

namespace LesserRTTI

/-- Per-column ascending flags: a null asc_desc_flags_ pointer means every
column is ascending (sqls_rtti_comp.hpp lines 113-117). -/
def ascFlags (L : LesserRTTI) : List Bool :=
  match L.asc_desc_flags with
  | none => List.replicate L.cols.length true
  | some fs => fs

/-- LesserRTTI::equal. -/
def equal (L : LesserRTTI) (row1 row2 : Nat) : Bool :=
  equalLoop L.cols row1 row2

/-- LesserRTTI::less. -/
def less (L : LesserRTTI) (row1 row2 : Nat) : Bool :=
  lessLoop L.cols row1 row2

/-- LesserRTTI::equal_v. -/
def equal_v (L : LesserRTTI) (row : Nat) : Bool :=
  equalVLoop (L.cols.zip L.vals) row

/-- LesserRTTI::asc_desc_comparison. -/
def asc_desc_comparison (L : LesserRTTI) (row1 row2 : Nat) : Bool :=
  asc_desc_loop (L.cols.zip L.ascFlags) row1 row2

/-- LesserRTTI::asc_desc_comparison_with_nulls. -/
def asc_desc_comparison_with_nulls (L : LesserRTTI) (row1 row2 : Nat) : Bool :=
  asc_desc_with_nulls_loop L.nulls_are_smallest (L.cols.zip L.ascFlags) row1 row2

end LesserRTTI

/-- multi_col_filter (sqls_rtti_comp.hpp lines 606-633): thrust::copy_if of
the counting range [0, nrows) under equal_v into the output index array,
returning the new size as the distance written.  copy_if is a stable filter,
so the model is List.filter over List.range; the pair returned is the
written index array and the returned count. -/
def multi_col_filter (L : LesserRTTI) (nrows : Nat) : List Nat × Nat :=
  let out := (List.range nrows).filter (fun i => L.equal_v i)
  (out, out.length)

/-!  Hash-based group-by engine (src/src/groupby/hash/groupby_compute_api.h).

The concurrent_unordered_map and the kernels build_aggregation_table and
extract_groupby_result live in headers that are not among the sources at
hand; their behaviour is modelled from the spec, which states that a hash
table entry is a key/value slot, that a reserved sentinel key represents an
empty slot, that building atomically combines each input row value into the
slot of its key starting from the aggregation identity, and that extraction
appends every non-empty slot into dense output arrays. -/

/-- The cudaError_t values GroupbyHash can produce from its own argument
checks: success, or the not-permitted error for rejected inputs. -/
inductive CudaError where
  | success
  | errorNotPermitted
deriving DecidableEq, Repr

/-- Modelled from the spec: build_aggregation_table.  Inserts each
(key, value) pair of the zipped input columns into the table, combining with
the aggregation operation when the key is already present and starting from
the aggregation identity otherwise.  The table is abstracted to the
association list of its occupied slots; a slot is occupied exactly when its
key differs from the reserved sentinel unused_key, so a pair whose key is
the sentinel itself never turns a slot into an occupied one. -/
def build_aggregation_table (unused_key : Int) (identity : Int)
    (agg : Int → Int → Int) : List (Int × Int) → List (Int × Int)
  | [] => []
  | (k, v) :: rest =>
    let tbl := build_aggregation_table unused_key identity agg rest
    if k = unused_key then tbl
    else
      match tbl.lookup k with
      | some acc => tbl.map (fun p => if p.1 = k then (k, agg acc v) else p)
      | none => (k, agg identity v) :: tbl

/-- Modelled from the spec: extract_groupby_result.  Scans the table and
appends every non-empty slot — every slot whose key differs from the
reserved sentinel — to the dense output; slots still holding the sentinel
key are empty and skipped. -/
def extract_groupby_result (unused_key : Int) (tbl : List (Int × Int)) :
    List (Int × Int) :=
  tbl.filter (fun p => p.1 ≠ unused_key)

/-- GroupbyHash (groupby_compute_api.h lines 38-118) for one groupby column
and one aggregation column, specialised to integer keys and values.  The
map_type reserves std::numeric_limits of the groupby type max() as the
unused (empty-slot) sentinel key; the model takes that sentinel as the
parameter unused_key.  The function rejects an input size of zero or less
with cudaErrorNotPermitted before touching the table (the null-pointer
checks of the C++ have no counterpart on Lists), then builds the
aggregation table and extracts every occupied slot into the dense outputs,
returning the output keys, output values and the final write index. -/
def GroupbyHash (unused_key : Int) (identity : Int) (agg : Int → Int → Int)
    (in_groupby_column : List Int) (in_aggregation_column : List Int) :
    Except CudaError (List Int × List Int × Nat) :=
  if in_groupby_column.length = 0 then Except.error CudaError.errorNotPermitted
  else
    let tbl := build_aggregation_table unused_key identity agg
      (in_groupby_column.zip in_aggregation_column)
    let out := extract_groupby_result unused_key tbl
    Except.ok (out.map Prod.fst, out.map Prod.snd, out.length)

/-- The sentinel std::numeric_limits of int32_t max(), the empty-slot key of
the hash table when the groupby type is a 32-bit integer
(groupby_compute_api.h line 47). -/
def groupby_sentinel_int32 : Int := 2147483647

/-!  Compound-aggregation decomposition
(src/cpp/src/groupby/hash/aggregation_requests.cpp). -/

/-- The aggregation operators named by aggregation_requests.cpp.  The enum
declaration itself (cudf/groupby.hpp) is not among the sources at hand; the
constructors are the ones the file uses. -/
inductive operators where
  | SUM
  | MIN
  | MAX
  | COUNT
  | AVG
deriving DecidableEq, Repr

/-- An aggregation request: the value column (identified here by an index
standing in for the gdf_column pointer) and the operator. -/
abbrev AggRequestType := Nat × operators

/-- The per-request rewrite inside compound_to_simple
(aggregation_requests.cpp lines 41-54): AVG inserts COUNT and SUM into the
set of simple operators of its column, any other operator inserts itself. -/
def expand_op : operators → List operators
  | .AVG => [.COUNT, .SUM]
  | op => [op]

/-- compound_to_simple (aggregation_requests.cpp lines 36-67): builds a map
from each value column to the set of simple operators requested on it, then
flattens that map into a list of simple requests.  The C++ iterates an
unordered_map of sets, so its output order is unspecified; the model fixes
first-occurrence order with List.dedup, which preserves the two properties
the map/set representation guarantees: membership, and each (column,
operator) pair occurring at most once. -/
def compound_to_simple (compound_requests : List AggRequestType) :
    List AggRequestType :=
  (compound_requests.flatMap
    (fun r => (expand_op r.2).map (fun o => (r.1, o)))).dedup

/-- compute_average (aggregation_requests.cpp lines 69-83): CUDF_EXPECTS
that the SUM and COUNT columns have equal sizes — a size mismatch raises a
fatal error immediately — then divides elementwise.  The elementwise
GDF_DIV is performed by the binary-operation subsystem, which the spec
treats as an external collaborator; it is modelled from the spec as exact
elementwise division of the column values, with GDF_FLOAT64 values modelled
as rationals. -/
def compute_average (sum count : List ℚ) : Except String (List ℚ) :=
  if sum.length = count.length then
    Except.ok (List.zipWith (· / ·) sum count)
  else Except.error "Size mismatch between sum and count columns."

/-!  Sorted-merge and hash join engines (src/src/joining.h), specialised to
a single sorted integer key column, the instantiation the comparator
less_t provides at the call sites. -/

/-- The vectorized lower bound sorted_search with bounds_lower computes
inside compute_join_bounds (joining.h lines 23-39): for sorted b, the index
of the first element of b not below x, which equals the number of elements
of b strictly below x.  moderngpu is an external library; this is its
documented result. -/
def lower_bound (b : List Int) (x : Int) : Nat :=
  b.countP (fun y => decide (y < x))

/-- The vectorized upper bound sorted_search with bounds_upper computes
inside compute_join_bounds: for sorted b, the index of the first element of
b above x, which equals the number of elements of b not above x. -/
def upper_bound (b : List Int) (x : Int) : Nat :=
  b.countP (fun y => decide (y ≤ x))

/-- left_join (joining.h lines 245-257) composed of compute_join_bounds,
scan_join_bounds with isInner false and compute_joined_indices with isInner
false.  scan_join_bounds gives segment i the size upper - lower, plus one
slot when the two bounds coincide (a left-only key); the load-balancing
search of compute_joined_indices then emits, at each position of segment i
with local rank, the pair a_index = i and b_index = lower + rank, except
that a segment whose bounds coincide emits the sentinel -1 as b_index.  The
decoupled output arrays output_data[k] and output_data[k + npairs] are
modelled as one list of pairs, concatenated in segment order exactly as the
load-balancing search lays positions out. -/
def left_join (a b : List Int) : List (Nat × Int) :=
  (List.range a.length).flatMap (fun i =>
    let x := a.getD i 0
    let lo := lower_bound b x
    let hi := upper_bound b x
    if hi = lo then [(i, (-1 : Int))]
    else (List.range (hi - lo)).map (fun rank => (i, ((lo + rank : Nat) : Int))))

/-- Modelled from the spec: the pair set the probe kernel probe_hash_tbl of
the hash join emits (its header hash-join/inner_join.cuh is not among the
sources at hand).  The multimap is built on the first relation keyed by
value with the row index as payload; probing scans every row j of the
second relation and emits, for every build row i whose key equals the probe
key under full key equality, the pair of x = build index i and y = probe
index j.  The concurrent emission order is unspecified; the model fixes
probe-major order, and the claims proved over it are order-insensitive. -/
def hash_join_matches (build probe : List Int) : List (Nat × Nat) :=
  (List.range probe.length).flatMap (fun j =>
    ((List.range build.length).filter
      (fun i => build.getD i 0 = probe.getD j 0)).map (fun i => (i, j)))

/-- inner_join_hash (joining.h lines 182-243): when a_count > b_count the
engine recurses with the two sides swapped and flip_indices set, so the
hash table is always built on the smaller side; the final transform writes
output_data[k] = flip ? joined[k].y : joined[k].x and output_data[k+n] =
flip ? joined[k].x : joined[k].y, which the model renders as swapping each
emitted pair back when flip_indices is set. -/
def inner_join_hash (a b : List Int) : List (Nat × Nat) :=
  if a.length > b.length then
    (hash_join_matches b a).map (fun p => (p.2, p.1))
  else
    hash_join_matches a b

/-!  Helper lemmas about the value relations. -/

/-- res < res is always false, NaN included. -/
theorem vlt_self (v : GdfValue) : vlt v v = false := by
  cases v with
  | int a => simp [vlt]
  | float o =>
    cases o with
    | none => rfl
    | some q => simp [vlt]

/-- res == res is true for every non-NaN value. -/
theorem veq_self (v : GdfValue) (h : isNaN v = false) : veq v v = true := by
  cases v with
  | int a => simp [veq]
  | float o =>
    cases o with
    | none => simp [isNaN] at h
    | some q => simp [veq]

/-- The less loop is irreflexive column by column: on a supported column the
dispatched OpLess at equal rows yields Undecided for a non-NaN value and a
decisive False for a NaN value, never True; an unsupported column yields
Undecided; so the loop always ends in false. -/
theorem lessLoop_self (cols : List ColumnRef) (i : Nat) :
    lessLoop cols i i = false := by
  induction cols with
  | nil => rfl
  | cons c rest ih =>
    by_cases hs : supported_dtype c.dtype = true
    · by_cases he : veq (colAt c i) (colAt c i) = true
      · simp [lessLoop, type_dispatcher, hs, OpLess, vlt_self, he, ih]
      · simp [lessLoop, type_dispatcher, hs, OpLess, vlt_self, he]
    · simp [lessLoop, type_dispatcher, hs, ih]

/-- The equality loop at equal rows returns true provided no supported
column reads a NaN at that row. -/
theorem equalLoop_self (cols : List ColumnRef) (i : Nat)
    (h : ∀ c ∈ cols, supported_dtype c.dtype = true → isNaN (colAt c i) = false) :
    equalLoop cols i i = true := by
  induction cols with
  | nil => rfl
  | cons c rest ih =>
    have hrest : ∀ c ∈ rest, supported_dtype c.dtype = true → isNaN (colAt c i) = false :=
      fun c hc => h c (List.mem_cons_of_mem _ hc)
    by_cases hs : supported_dtype c.dtype = true
    · have hnan : isNaN (colAt c i) = false := h c (List.mem_cons_self _ _) hs
      have heq : veq (colAt c i) (colAt c i) = true := veq_self _ hnan
      simp [equalLoop, type_dispatcher, hs, OpEqual, vne, heq, ih hrest]
    · simp [equalLoop, type_dispatcher, hs, ih hrest]

/-- C1, amended.  For every table accepted by the multi-column comparator
and every row i, less(i, i) is false unconditionally — even at NaN values,
where the dispatched OpLess answers a decisive False rather than a tie —
and equal(i, i) is true provided no supported column holds a NaN at row i:
the no-NaN hypothesis guards only the equality conjunct.  On a NaN the C++
reads res1 and res2 from the same location and res1 != res2 is IEEE-true,
so equal(i, i) is false there (see the counterexample). -/
theorem comparator_reflexive (L : LesserRTTI) (i : Nat) :
    L.less i i = false ∧
    ((∀ c ∈ L.cols, supported_dtype c.dtype = true → isNaN (colAt c i) = false) →
      L.equal i i = true) :=
  ⟨lessLoop_self L.cols i, fun h => equalLoop_self L.cols i h⟩

/-- A single GDF_FLOAT32 column holding one NaN value, no validity mask. -/
def nanTable : LesserRTTI :=
  { cols := [{ dtype := GdfDtype.GDF_FLOAT32,
               data := [GdfValue.float none],
               valid := none }],
    vals := [], asc_desc_flags := none, nulls_are_smallest := false }

/-- C1, counterexample.  On a supported floating-point column whose row 0
holds NaN, equal(0, 0) returns false, refuting the claim that equal(i, i)
is true for any values including floating-point ones. -/
theorem comparator_reflexive_nan_counterexample :
    nanTable.equal 0 0 = false := by rfl

/-- A witness table: one GDF_INT32 column with two ordinary values. -/
def intTable : LesserRTTI :=
  { cols := [{ dtype := GdfDtype.GDF_INT32,
               data := [GdfValue.int 5, GdfValue.int 7],
               valid := none }],
    vals := [], asc_desc_flags := none, nulls_are_smallest := false }

/-- C1, witness: the amended reflexivity theorem applied at row 0 of the
concrete NaN table — establishing less(0, 0) = false on the NaN row itself
— and at row 0 of a concrete integer table, where the no-NaN hypothesis is
discharged and equal(0, 0) = true follows. -/
theorem comparator_reflexive_witness :
    nanTable.less 0 0 = false ∧
    intTable.less 0 0 = false ∧ intTable.equal 0 0 = true :=
  ⟨(comparator_reflexive nanTable 0).1,
   (comparator_reflexive intTable 0).1,
   (comparator_reflexive intTable 0).2 (by decide)⟩

/-- C2, amended.  Dispatching any comparator operation on a column whose
runtime tag is outside the six supported numeric tags does not raise a
Not-Implemented error: the default branch of both dispatchers runs a
debug-only assert(false) and then returns State::Undecided, so equal, less
and asc_desc treat the unsupported column exactly as a tie and silently
continue with the remaining columns. -/
theorem unsupported_dispatch_silent_tie
    (pred : GdfValue → GdfValue → State)
    (predn : GdfValue → GdfValue → Bool → Bool → State)
    (c : ColumnRef) (rest : List ColumnRef) (restf : List (ColumnRef × Bool))
    (flag : Bool) (row1 row2 : Nat)
    (h : supported_dtype c.dtype = false) :
    type_dispatcher pred c row1 row2 = State.Undecided ∧
    type_dispatcher_with_nulls predn c row1 row2 = State.Undecided ∧
    equalLoop (c :: rest) row1 row2 = equalLoop rest row1 row2 ∧
    lessLoop (c :: rest) row1 row2 = lessLoop rest row1 row2 ∧
    asc_desc_loop ((c, flag) :: restf) row1 row2 = asc_desc_loop restf row1 row2 := by
  refine ⟨?_, ?_, ?_, ?_, ?_⟩
  · simp [type_dispatcher, h]
  · simp [type_dispatcher_with_nulls, h]
  · simp [equalLoop, type_dispatcher, h]
  · simp [lessLoop, type_dispatcher, h]
  · cases flag <;> simp [asc_desc_loop, type_dispatcher, h]

/-- A column with the unsupported tag GDF_STRING whose two rows differ. -/
def strColumn : ColumnRef :=
  { dtype := GdfDtype.GDF_STRING,
    data := [GdfValue.int 0, GdfValue.int 1],
    valid := none }

/-- A table consisting of the single unsupported GDF_STRING column. -/
def strTable : LesserRTTI :=
  { cols := [strColumn], vals := [], asc_desc_flags := none,
    nulls_are_smallest := false }

/-- C2, counterexample.  Dispatching equality on a GDF_STRING column does
not fail: the dispatcher returns the tie value State::Undecided, and the
comparator built on it silently reports two rows with different contents as
equal — exactly the silent tie/fallback result the claim rules out. -/
theorem unsupported_dispatch_counterexample :
    type_dispatcher OpEqual strColumn 0 1 = State.Undecided ∧
    strTable.equal 0 1 = true ∧
    strTable.less 0 1 = false ∧
    strTable.asc_desc_comparison 0 1 = false := by
  refine ⟨rfl, rfl, rfl, rfl⟩

/-- C2, witness: the amended theorem applied to the concrete GDF_STRING
column. -/
theorem unsupported_dispatch_witness :
    type_dispatcher OpEqual strColumn 0 1 = State.Undecided ∧
    type_dispatcher_with_nulls
      (fun r1 r2 v1 v2 => OpLess_with_nulls r1 r2 v1 v2 false)
      strColumn 0 1 = State.Undecided ∧
    equalLoop [strColumn] 0 1 = equalLoop [] 0 1 ∧
    lessLoop [strColumn] 0 1 = lessLoop [] 0 1 ∧
    asc_desc_loop [(strColumn, true)] 0 1 = asc_desc_loop [] 0 1 :=
  unsupported_dispatch_silent_tie OpEqual
    (fun r1 r2 v1 v2 => OpLess_with_nulls r1 r2 v1 v2 false)
    strColumn [] [] true 0 1 (by decide)

/-- C4.  The null-aware comparison operators resolve nulls per the
nulls_are_smallest policy: two nulls are an Undecided tie, which the
asc_desc_comparison_with_nulls loop skips, continuing with the remaining
columns; exactly one null is decisive, the null side comparing as the
smallest value when the flag is true and as the largest when it is false
(row1 null: less is True exactly under the flag, greater is True exactly
against it; row2 null symmetrically). -/
theorem null_policy_comparison (res1 res2 : GdfValue) (nas : Bool) :
    (OpLess_with_nulls res1 res2 false false nas = State.Undecided ∧
     OpGreater_with_nulls res1 res2 false false nas = State.Undecided) ∧
    (OpLess_with_nulls res1 res2 false true nas =
       (if nas then State.True else State.False) ∧
     OpGreater_with_nulls res1 res2 false true nas =
       (if nas then State.False else State.True)) ∧
    (OpLess_with_nulls res1 res2 true false nas =
       (if nas then State.False else State.True) ∧
     OpGreater_with_nulls res1 res2 true false nas =
       (if nas then State.True else State.False)) ∧
    (∀ (c : ColumnRef) (flag : Bool) (restf : List (ColumnRef × Bool)) (row1 row2 : Nat),
       is_valid c row1 = false → is_valid c row2 = false →
       asc_desc_with_nulls_loop nas ((c, flag) :: restf) row1 row2 =
         asc_desc_with_nulls_loop nas restf row1 row2) := by
  refine ⟨?_, ?_, ?_, ?_⟩
  · cases nas <;> simp [OpLess_with_nulls, OpGreater_with_nulls]
  · cases nas <;> simp [OpLess_with_nulls, OpGreater_with_nulls]
  · cases nas <;> simp [OpLess_with_nulls, OpGreater_with_nulls]
  · intro c flag restf row1 row2 h1 h2
    by_cases hs : supported_dtype c.dtype = true
    · cases flag <;>
        simp [asc_desc_with_nulls_loop, type_dispatcher_with_nulls, hs, h1, h2,
          OpLess_with_nulls, OpGreater_with_nulls]
    · cases flag <;>
        simp [asc_desc_with_nulls_loop, type_dispatcher_with_nulls, hs]

/-- A GDF_INT32 column whose two rows are both null under its mask. -/
def bothNullColumn : ColumnRef :=
  { dtype := GdfDtype.GDF_INT32,
    data := [GdfValue.int 3, GdfValue.int 9],
    valid := some [false, false] }

/-- C4, witness: the policy theorem applied at concrete values and a
concrete both-null column. -/
theorem null_policy_comparison_witness :
    OpLess_with_nulls (GdfValue.int 3) (GdfValue.int 9) false true true = State.True ∧
    asc_desc_with_nulls_loop true [(bothNullColumn, true)] 0 1 =
      asc_desc_with_nulls_loop true [] 0 1 := by
  constructor
  · exact (null_policy_comparison (GdfValue.int 3) (GdfValue.int 9) true).2.1.1
  · exact (null_policy_comparison (GdfValue.int 3) (GdfValue.int 9) true).2.2.2
      bothNullColumn true [] 0 1 (by decide) (by decide)

/-- The predicate equal_v row-matches the target tuple exactly when, on
every column paired with its target value whose tag is supported, the
dispatched inequality test is false; unsupported columns are silently tied
by the dispatcher and constrain nothing. -/
theorem equalVLoop_iff (ps : List (ColumnRef × GdfValue)) (row : Nat) :
    equalVLoop ps row = true ↔
      ∀ p ∈ ps, supported_dtype p.1.dtype = true →
        vne (colAt p.1 row) p.2 = false := by
  induction ps with
  | nil => simp [equalVLoop]
  | cons p rest ih =>
    obtain ⟨c, v⟩ := p
    by_cases hs : supported_dtype c.dtype = true
    · cases hvv : vne (colAt c row) v with
      | true =>
        simp only [equalVLoop, type_dispatcher_v, hs, if_true, OpEqualV, hvv,
          List.forall_mem_cons]
        simp [hs, hvv]
      | false =>
        simp only [equalVLoop, type_dispatcher_v, hs, if_true, OpEqualV, hvv,
          List.forall_mem_cons]
        simp [hs, hvv, ih]
    · simp [equalVLoop, type_dispatcher_v, hs, ih, List.forall_mem_cons]

/-- C7.  multi_col_filter returns as its new size the number of rows of
[0, nrows) whose columns all equal the target tuple under the dispatched
equality operator, and its output array holds exactly the indices of those
rows, strictly increasing — hence stable, dense and without holes; the
final conjunct characterises the row predicate columnwise. -/
theorem multi_col_filter_spec (L : LesserRTTI) (nrows : Nat) :
    (multi_col_filter L nrows).2 =
      (List.range nrows).countP (fun i => L.equal_v i) ∧
    List.Sorted (fun x y => x < y) (multi_col_filter L nrows).1 ∧
    (∀ i, i ∈ (multi_col_filter L nrows).1 ↔ i < nrows ∧ L.equal_v i = true) ∧
    (∀ i, L.equal_v i = true ↔
       ∀ p ∈ L.cols.zip L.vals, supported_dtype p.1.dtype = true →
         vne (colAt p.1 i) p.2 = false) := by
  refine ⟨?_, ?_, ?_, ?_⟩
  · exact (List.countP_eq_length_filter _ _).symm
  · exact List.Pairwise.sublist (List.filter_sublist _) (List.pairwise_lt_range nrows)
  · intro i
    simp [multi_col_filter, List.mem_filter, List.mem_range]
  · intro i
    exact equalVLoop_iff (L.cols.zip L.vals) i

/-- A filter witness table: one GDF_INT32 column with rows 5, 7, 5 and the
target tuple holding the single value 5, so rows 0 and 2 match. -/
def filterTable : LesserRTTI :=
  { cols := [{ dtype := GdfDtype.GDF_INT32,
               data := [GdfValue.int 5, GdfValue.int 7, GdfValue.int 5],
               valid := none }],
    vals := [GdfValue.int 5], asc_desc_flags := none,
    nulls_are_smallest := false }

/-- C7, witness: on the concrete table the compacted output is [0, 2], its
length 2 is the returned size, and the membership characterisation of the
theorem holds at row 2. -/
theorem multi_col_filter_witness :
    (multi_col_filter filterTable 3).1 = [0, 2] ∧
    (multi_col_filter filterTable 3).2 = 2 ∧
    (2 ∈ (multi_col_filter filterTable 3).1 ↔
      2 < 3 ∧ filterTable.equal_v 2 = true) := by
  refine ⟨by decide, by decide, (multi_col_filter_spec filterTable 3).2.2.1 2⟩

/-- C3, amended.  GroupbyHash rejects an empty input outright: when the
input row count is zero it returns cudaErrorNotPermitted before building
anything, rather than producing an empty error-free result. -/
theorem groupby_hash_empty_rejected (unused_key identity : Int)
    (agg : Int → Int → Int) (keys vals : List Int)
    (h : keys.length = 0) :
    GroupbyHash unused_key identity agg keys vals =
      Except.error CudaError.errorNotPermitted := by
  simp [GroupbyHash, h]

/-- C3, counterexample.  On the concrete empty input, GroupbyHash returns
the error cudaErrorNotPermitted — not an empty, error-free result. -/
theorem groupby_hash_empty_counterexample :
    GroupbyHash groupby_sentinel_int32 0 (fun a b => a + b) [] [] =
      Except.error CudaError.errorNotPermitted := by rfl

/-- C3, witness: the amended rejection theorem applied to the concrete
empty input. -/
theorem groupby_hash_empty_witness :
    GroupbyHash groupby_sentinel_int32 0 (fun a b => a + b) [] [] =
      Except.error CudaError.errorNotPermitted :=
  groupby_hash_empty_rejected groupby_sentinel_int32 0 (fun a b => a + b)
    [] [] (by rfl)

/-- Every key of an occupied slot of the built table differs from the
reserved sentinel: a pair whose key is the sentinel never occupies a slot,
and combining into an existing slot keeps its key. -/
theorem build_aggregation_table_keys (unused_key identity : Int)
    (agg : Int → Int → Int) (rows : List (Int × Int)) :
    ∀ p ∈ build_aggregation_table unused_key identity agg rows,
      p.1 ≠ unused_key := by
  induction rows with
  | nil => intro p hp; simp [build_aggregation_table] at hp
  | cons kv rest ih =>
    obtain ⟨k, v⟩ := kv
    intro p hp
    by_cases hk : k = unused_key
    · exact ih p (by simpa [build_aggregation_table, hk] using hp)
    · simp only [build_aggregation_table, if_neg hk] at hp
      cases hl : (build_aggregation_table unused_key identity agg rest).lookup k with
      | some acc =>
        rw [hl] at hp
        rcases List.mem_map.mp hp with ⟨q, hq, hqe⟩
        by_cases hq1 : q.1 = k
        · simp only [hq1, if_true] at hqe
          rw [← hqe]
          exact hk
        · simp only [hq1, if_false] at hqe
          rw [← hqe]
          exact ih q hq
      | none =>
        rw [hl] at hp
        rcases List.mem_cons.mp hp with h1 | h1
        · rw [h1]; exact hk
        · exact ih p h1

/-- C10.  The hash group-by reserves its sentinel (instantiated at
std::numeric_limits of the groupby type max()) as the empty-slot key, and
extraction emits only slots whose key differs from it; so on every input
that GroupbyHash accepts, the sentinel key never appears among the output
group keys — a row carrying that key value is never reported as a group. -/
theorem groupby_sentinel_never_output (unused_key identity : Int)
    (agg : Int → Int → Int) (keys vals : List Int)
    (gk gv : List Int) (n : Nat)
    (h : GroupbyHash unused_key identity agg keys vals =
      Except.ok (gk, gv, n)) :
    unused_key ∉ gk := by
  by_cases hlen : keys.length = 0
  · simp [GroupbyHash, hlen] at h
  · simp only [GroupbyHash, hlen, if_false] at h
    injection h with h
    have hgk : gk = (extract_groupby_result unused_key
        (build_aggregation_table unused_key identity agg
          (keys.zip vals))).map Prod.fst := by
      have := congrArg Prod.fst h
      simpa using this.symm
    rw [hgk]
    intro hmem
    rcases List.mem_map.mp hmem with ⟨p, hp, hpe⟩
    have hkey := (List.mem_filter.mp hp).2
    simp only [extract_groupby_result] at hp
    rcases List.mem_filter.mp hp with ⟨_, hne⟩
    simp only [decide_eq_true_eq] at hne
    exact (by simpa using hne : p.1 ≠ unused_key) hpe

/-- C10, witness: with sentinel 7, the input keys [7, 1, 1] and values
[10, 20, 30] produce the single group key 1 with aggregate 50, and the
theorem applied there shows 7 is absent from the output keys. -/
theorem groupby_sentinel_never_output_witness :
    (7 : Int) ∉ ([1] : List Int) :=
  groupby_sentinel_never_output 7 0 (fun a b => a + b)
    [7, 1, 1] [10, 20, 30] [1] [50] 1 (by rfl)

/-- C8.  compound_to_simple rewrites every AVG request on a column into the
two simple requests COUNT and SUM on that column, passes every non-compound
request through as itself, and merges duplicates: a pair (column, simple
operator) is in the output exactly when some input request on that column
expands to that operator, and no pair occurs twice. -/
theorem compound_to_simple_spec (compound_requests : List AggRequestType) :
    (∀ (c : Nat) (op' : operators),
       (c, op') ∈ compound_to_simple compound_requests ↔
         ∃ op, (c, op) ∈ compound_requests ∧ op' ∈ expand_op op) ∧
    (compound_to_simple compound_requests).Nodup ∧
    expand_op operators.AVG = [operators.COUNT, operators.SUM] ∧
    (∀ op, op ≠ operators.AVG → expand_op op = [op]) := by
  refine ⟨?_, List.nodup_dedup _, rfl, ?_⟩
  · intro c op'
    constructor
    · intro h
      rcases List.mem_flatMap.mp (List.mem_dedup.mp h) with ⟨r, hr, hmem⟩
      rcases List.mem_map.mp hmem with ⟨o, ho, hoe⟩
      refine ⟨r.2, ?_, ?_⟩
      · have h1 : r.1 = c := congrArg Prod.fst hoe
        have : r = (c, r.2) := by
          cases r; simp at h1 ⊢; exact h1
        rw [← this]; exact hr
      · have h2 : o = op' := congrArg Prod.snd hoe
        rw [← h2]; exact ho
    · intro ⟨op, hop, hexp⟩
      refine List.mem_dedup.mpr (List.mem_flatMap.mpr ⟨(c, op), hop, ?_⟩)
      exact List.mem_map.mpr ⟨op', hexp, rfl⟩
  · intro op h
    cases op <;> simp_all [expand_op]

/-- C8, witness: on the concrete request list [AVG on column 0, SUM on
column 0], membership of (0, SUM) in the output is characterised by the
theorem, and the concrete output is the merged pair list. -/
theorem compound_to_simple_witness :
    compound_to_simple [(0, operators.AVG), (0, operators.SUM)] =
      [(0, operators.COUNT), (0, operators.SUM)] ∧
    ((0, operators.SUM) ∈
        compound_to_simple [(0, operators.AVG), (0, operators.SUM)] ↔
      ∃ op, (0, op) ∈ [(0, operators.AVG), (0, operators.SUM)] ∧
        operators.SUM ∈ expand_op op) :=
  ⟨by decide,
   (compound_to_simple_spec [(0, operators.AVG), (0, operators.SUM)]).1
     0 operators.SUM⟩

/-- C9.  compute_average raises the fatal size-mismatch error exactly when
the SUM and COUNT columns differ in length, and otherwise returns the
elementwise quotient column: entry i of the result is sum over count at i. -/
theorem compute_average_spec (sum count : List ℚ) :
    (sum.length ≠ count.length →
       compute_average sum count =
         Except.error "Size mismatch between sum and count columns.") ∧
    (sum.length = count.length →
       compute_average sum count =
         Except.ok (List.zipWith (fun s c => s / c) sum count)) ∧
    (∀ (i : Nat) (h1 : i < sum.length) (h2 : i < count.length)
       (h3 : i < (List.zipWith (fun s c => s / c) sum count).length),
       (List.zipWith (fun s c => s / c) sum count).get ⟨i, h3⟩ =
         sum.get ⟨i, h1⟩ / count.get ⟨i, h2⟩) := by
  refine ⟨?_, ?_, ?_⟩
  · intro h; simp [compute_average, h]
  · intro h; simp [compute_average, h]
  · intro i h1 h2 h3
    simp [List.get_eq_getElem, List.getElem_zipWith]

/-- C9, witness: SUM column [6, 15] and COUNT column [3, 3] have equal
lengths, so the theorem yields the elementwise quotient [2, 5]; a COUNT
column of the wrong length [3] is rejected with the fatal error. -/
theorem compute_average_witness :
    compute_average [6, 15] [3, 3] = Except.ok [2, 5] ∧
    compute_average [6, 15] [3] =
      Except.error "Size mismatch between sum and count columns." := by
  constructor
  · have h := (compute_average_spec [6, 15] [3, 3]).2.1 (by rfl)
    rw [h]
    norm_num
  · exact (compute_average_spec [6, 15] [3]).1 (by simp)

/-- A pair is emitted by the probe exactly when both indices are in range
and the build-side key equals the probe-side key. -/
theorem mem_hash_join_matches (build probe : List Int) (p : Nat × Nat) :
    p ∈ hash_join_matches build probe ↔
      p.1 < build.length ∧ p.2 < probe.length ∧
        build.getD p.1 0 = probe.getD p.2 0 := by
  obtain ⟨i, j⟩ := p
  simp only [hash_join_matches, List.mem_flatMap, List.mem_map,
    List.mem_filter, List.mem_range]
  constructor
  · rintro ⟨j', hj', i', ⟨⟨hi', hkey⟩, heq⟩⟩
    obtain ⟨rfl, rfl⟩ : i' = i ∧ j' = j := by
      constructor
      · exact congrArg Prod.fst heq
      · exact congrArg Prod.snd heq
    exact ⟨hi', hj', by simpa using hkey⟩
  · rintro ⟨hi, hj, hkey⟩
    exact ⟨j, hj, i, ⟨⟨hi, by simpa using hkey⟩, rfl⟩⟩

/-- The emitted pair list never repeats a pair: segments of distinct probe
rows are disjoint and each segment enumerates distinct build rows. -/
theorem hash_join_matches_nodup (build probe : List Int) :
    (hash_join_matches build probe).Nodup := by
  apply List.nodup_flatMap.mpr
  constructor
  · intro j hj
    apply List.Nodup.map
    · intro x y hxy
      exact congrArg Prod.fst hxy
    · exact (List.nodup_range _).filter _
  · have : ∀ j1 j2 : Nat, j1 ≠ j2 →
        List.Disjoint
          (((List.range build.length).filter
              (fun i => build.getD i 0 = probe.getD j1 0)).map (fun i => (i, j1)))
          (((List.range build.length).filter
              (fun i => build.getD i 0 = probe.getD j2 0)).map (fun i => (i, j2))) := by
      intro j1 j2 hne q hq1 hq2
      rcases List.mem_map.mp hq1 with ⟨x, _, hx⟩
      rcases List.mem_map.mp hq2 with ⟨y, _, hy⟩
      have e1 : q.2 = j1 := by rw [← hx]
      have e2 : q.2 = j2 := by rw [← hy]
      exact hne (e1 ▸ e2)
    refine List.Pairwise.imp ?_ (List.pairwise_lt_range probe.length)
    intro j1 j2 hlt
    exact this j1 j2 (Nat.ne_of_lt hlt)

/-- C6.  When the caller passes the larger relation first
(a_count > b_count), inner_join_hash swaps the sides, builds on the smaller
relation, and flips every emitted pair back; the returned pair list holds
exactly the pairs whose two keys match — each once — and is a permutation
of what building directly on the first relation produces, so the returned
pair set is the same as with the smaller relation passed first. -/
theorem inner_join_hash_swap (a b : List Int) (h : a.length > b.length) :
    (∀ p : Nat × Nat, p ∈ inner_join_hash a b ↔
       p.1 < a.length ∧ p.2 < b.length ∧ a.getD p.1 0 = b.getD p.2 0) ∧
    (inner_join_hash a b).Nodup ∧
    (inner_join_hash a b).Perm (hash_join_matches a b) := by
  have e : inner_join_hash a b =
      (hash_join_matches b a).map (fun p => (p.2, p.1)) := by
    simp [inner_join_hash, h]
  have hmem : ∀ p : Nat × Nat, p ∈ inner_join_hash a b ↔
      p.1 < a.length ∧ p.2 < b.length ∧ a.getD p.1 0 = b.getD p.2 0 := by
    intro p
    rw [e]
    constructor
    · intro hp
      rcases List.mem_map.mp hp with ⟨q, hq, hqe⟩
      rcases (mem_hash_join_matches b a q).mp hq with ⟨h1, h2, h3⟩
      have e1 : q.2 = p.1 := congrArg Prod.fst hqe
      have e2 : q.1 = p.2 := congrArg Prod.snd hqe
      rw [← e1, ← e2]
      exact ⟨h2, h1, h3.symm⟩
    · intro ⟨h1, h2, h3⟩
      refine List.mem_map.mpr ⟨(p.2, p.1), ?_, rfl⟩
      exact (mem_hash_join_matches b a (p.2, p.1)).mpr ⟨h2, h1, h3.symm⟩
  have hnodup : (inner_join_hash a b).Nodup := by
    rw [e]
    apply List.Nodup.map
    · intro x y hxy
      have e1 : x.2 = y.2 := congrArg Prod.fst hxy
      have e2 : x.1 = y.1 := congrArg Prod.snd hxy
      exact Prod.ext e2 e1
    · exact hash_join_matches_nodup b a
  refine ⟨hmem, hnodup, ?_⟩
  refine (List.perm_ext_iff_of_nodup hnodup (hash_join_matches_nodup a b)).mpr ?_
  intro p
  rw [hmem p, mem_hash_join_matches a b p]

/-- C6, witness: with the larger relation [1, 2, 1] passed first against
[1], the engine returns the flipped pairs (0, 0) and (2, 0), the very pair
list direct building on the first relation produces, and the permutation
conjunct of the theorem holds there. -/
theorem inner_join_hash_swap_witness :
    inner_join_hash [1, 2, 1] [1] = [(0, 0), (2, 0)] ∧
    hash_join_matches [1, 2, 1] [1] = [(0, 0), (2, 0)] ∧
    (inner_join_hash [1, 2, 1] [1]).Perm (hash_join_matches [1, 2, 1] [1]) :=
  ⟨by decide, by decide, (inner_join_hash_swap [1, 2, 1] [1] (by decide)).2.2⟩

/-- In a sorted list, a downward-closed predicate holds exactly on the
initial segment whose length is its count: element j satisfies it if and
only if j is below countP. -/
theorem sorted_get_iff_lt_countP (l : List Int)
    (hl : l.Sorted (fun x y => x ≤ y)) (p : Int → Bool)
    (hp : ∀ y z : Int, y ≤ z → p z = true → p y = true)
    (j : Nat) (hj : j < l.length) :
    (p (l.get ⟨j, hj⟩) = true ↔ j < l.countP p) := by
  induction l generalizing j with
  | nil => simp at hj
  | cons c rest ih =>
    rw [List.sorted_cons] at hl
    obtain ⟨hc, hrest⟩ := hl
    cases hpc : p c with
    | true =>
      cases j with
      | zero => simp [List.countP_cons, hpc]
      | succ m =>
        have hm : m < rest.length := by simpa using hj
        have hget : (c :: rest).get ⟨m + 1, hj⟩ = rest.get ⟨m, hm⟩ := rfl
        rw [hget, List.countP_cons, hpc, ih hrest m hm]
        simp
    | false =>
      have hzero : rest.countP p = 0 := by
        rw [List.countP_eq_zero]
        intro y hy hpy
        have := hp c y (hc y hy) hpy
        rw [hpc] at this
        exact Bool.false_ne_true this
      have hcnt : List.countP p (c :: rest) = 0 := by
        rw [List.countP_cons, hpc, hzero]
        simp
      rw [hcnt]
      simp only [Nat.not_lt_zero, iff_false]
      cases j with
      | zero =>
        intro habs
        rw [show (c :: rest).get ⟨0, hj⟩ = c from rfl] at habs
        rw [hpc] at habs
        exact Bool.false_ne_true habs
      | succ m =>
        have hm : m < rest.length := by simpa using hj
        intro habs
        rw [show (c :: rest).get ⟨m + 1, hj⟩ = rest.get ⟨m, hm⟩ from rfl] at habs
        have hmem : rest.get ⟨m, hm⟩ ∈ rest := List.get_mem rest m hm
        have := List.countP_eq_zero.mp hzero _ hmem
        exact this habs

/-- The upper bound splits as the lower bound plus the number of elements
equal to the probe value, on any list. -/
theorem upper_eq_lower_add_matches (b : List Int) (x : Int) :
    upper_bound b x = lower_bound b x + b.countP (fun y => decide (y = x)) := by
  induction b with
  | nil => rfl
  | cons c rest ih =>
    simp only [upper_bound, lower_bound, List.countP_cons] at *
    rcases lt_trichotomy c x with h | h | h
    · simp [h, le_of_lt h, ne_of_lt h, ih]
      omega
    · simp [h, ih]
      omega
    · simp [not_le.mpr h, not_lt.mpr (le_of_lt h), (ne_of_gt h), ih]

/-- For sorted b, element j equals the probe value exactly when j lies in
the half-open bound window [lower_bound, upper_bound). -/
theorem sorted_eq_iff_bounds (b : List Int)
    (hb : b.Sorted (fun x y => x ≤ y)) (x : Int)
    (j : Nat) (hj : j < b.length) :
    (b.get ⟨j, hj⟩ = x ↔ lower_bound b x ≤ j ∧ j < upper_bound b x) := by
  have hlt := sorted_get_iff_lt_countP b hb (fun y => decide (y < x))
    (fun y z hyz hz => by
      simp only [decide_eq_true_eq] at *
      omega) j hj
  have hle := sorted_get_iff_lt_countP b hb (fun y => decide (y ≤ x))
    (fun y z hyz hz => by
      simp only [decide_eq_true_eq] at *
      omega) j hj
  simp only [decide_eq_true_eq] at hlt hle
  unfold lower_bound upper_bound
  constructor
  · intro he
    constructor
    · have : ¬ (b.get ⟨j, hj⟩ < x) := by omega
      rw [hlt] at this
      omega
    · exact hle.mp (by omega)
  · intro ⟨h1, h2⟩
    have hnotlt : ¬ (b.get ⟨j, hj⟩ < x) := fun habs => by
      have := hlt.mp habs
      omega
    have hle2 : b.get ⟨j, hj⟩ ≤ x := hle.mpr h2
    omega

/-- The output segment of one probe row of the left join: the sentinel pair
when the bound window is empty, otherwise one pair per window position. -/
def left_seg (b : List Int) (x : Int) (i : Nat) : List (Nat × Int) :=
  if upper_bound b x = lower_bound b x then [(i, (-1 : Int))]
  else (List.range (upper_bound b x - lower_bound b x)).map
    (fun rank => (i, ((lower_bound b x + rank : Nat) : Int)))

/-- left_join is the concatenation of its per-row segments. -/
theorem left_join_eq_flatMap (a b : List Int) :
    left_join a b =
      (List.range a.length).flatMap (fun i => left_seg b (a.getD i 0) i) := rfl

/-- Every pair of the segment of row i carries i as its first component. -/
theorem left_seg_fst (b : List Int) (x : Int) (i : Nat) :
    ∀ p ∈ left_seg b x i, p.1 = i := by
  intro p hp
  unfold left_seg at hp
  split at hp
  · rcases List.mem_singleton.mp hp with rfl
    rfl
  · rcases List.mem_map.mp hp with ⟨rank, _, rfl⟩
    rfl

/-- The segment of a row with k matches has length k when k is positive and
length one (the sentinel pair) when k is zero. -/
theorem left_seg_length (b : List Int) (x : Int) (i : Nat) :
    (left_seg b x i).length = max (b.countP (fun y => decide (y = x))) 1 := by
  have hsplit := upper_eq_lower_add_matches b x
  unfold left_seg
  split
  · rename_i h
    have hk : b.countP (fun y => decide (y = x)) = 0 := by omega
    simp [hk]
  · rename_i h
    have hk : b.countP (fun y => decide (y = x)) ≠ 0 := by omega
    simp only [List.length_map, List.length_range]
    omega

/-- Reading with a default at an in-range index is the checked read. -/
theorem getD_eq_get (l : List Int) (j : Nat) (h : j < l.length) :
    l.getD j 0 = l.get ⟨j, h⟩ := by
  rw [List.getD_eq_getElem l 0 h, List.get_eq_getElem]

/-- In a duplicate-free list every member has multiplicity one. -/
theorem count_eq_one_of_mem_nodup {α : Type} [BEq α] [LawfulBEq α] {a : α}
    {l : List α} (hn : l.Nodup) (hm : a ∈ l) : l.count a = 1 := by
  induction l with
  | nil => simp at hm
  | cons b rest ih =>
    rw [List.nodup_cons] at hn
    rcases List.mem_cons.mp hm with rfl | hmem
    · rw [List.count_cons, List.count_eq_zero_of_not_mem hn.1]
      simp
    · rw [List.count_cons, ih hn.2 hmem]
      have hne : ¬ (b == a) = true := by
        intro habs
        exact hn.1 (eq_of_beq habs ▸ hmem)
      simp [hne]

/-- Multiplicity of each pair inside one segment: with no matches the
sentinel pair occurs once and nothing else; with matches, exactly the pairs
pointing at a b row equal to the probe value occur, once each. -/
theorem count_left_seg (b : List Int) (hb : b.Sorted (fun x y => x ≤ y))
    (x : Int) (i : Nat) (j : Int) :
    (left_seg b x i).count (i, j) =
      if b.countP (fun y => decide (y = x)) = 0 then
        (if j = -1 then 1 else 0)
      else
        (if 0 ≤ j ∧ j.toNat < b.length ∧ b.getD j.toNat 0 = x
         then 1 else 0) := by
  have hsplit := upper_eq_lower_add_matches b x
  have hlen : upper_bound b x ≤ b.length := List.countP_le_length _
  unfold left_seg
  split
  · rename_i h
    have hk : b.countP (fun y => decide (y = x)) = 0 := by omega
    rw [if_pos hk]
    by_cases hj : j = -1
    · subst hj
      simp
    · simp [List.count_cons, hj, Ne.symm hj]
  · rename_i h
    have hk : b.countP (fun y => decide (y = x)) ≠ 0 := by omega
    rw [if_neg hk]
    by_cases hmem : (i, j) ∈ (List.range (upper_bound b x - lower_bound b x)).map
        (fun rank => (i, ((lower_bound b x + rank : Nat) : Int)))
    · have hnd : ((List.range (upper_bound b x - lower_bound b x)).map
          (fun rank => (i, ((lower_bound b x + rank : Nat) : Int)))).Nodup := by
        apply List.Nodup.map _ (List.nodup_range _)
        intro r s hrs
        have := congrArg Prod.snd hrs
        simp only [Int.natCast_inj] at this
        omega
      rcases List.mem_map.mp hmem with ⟨rank, hrank, he⟩
      have hrk : rank < upper_bound b x - lower_bound b x := List.mem_range.mp hrank
      have hje : ((lower_bound b x + rank : Nat) : Int) = j := congrArg Prod.snd he
      have h0 : 0 ≤ j := by omega
      have htn : j.toNat = lower_bound b x + rank := by omega
      have hjlen : j.toNat < b.length := by omega
      have hwin : lower_bound b x ≤ j.toNat ∧ j.toNat < upper_bound b x := by omega
      have hgd : b.getD j.toNat 0 = x := by
        rw [getD_eq_get b j.toNat hjlen]
        exact (sorted_eq_iff_bounds b hb x j.toNat hjlen).mpr hwin
      rw [if_pos ⟨h0, hjlen, hgd⟩]
      exact count_eq_one_of_mem_nodup hnd hmem
    · rw [List.count_eq_zero_of_not_mem hmem]
      by_cases hcond : 0 ≤ j ∧ j.toNat < b.length ∧ b.getD j.toNat 0 = x
      · exfalso
        obtain ⟨h0, hjlen, hgd⟩ := hcond
        have hget : b.get ⟨j.toNat, hjlen⟩ = x := by
          rw [← getD_eq_get b j.toNat hjlen]
          exact hgd
        have hwin := (sorted_eq_iff_bounds b hb x j.toNat hjlen).mp hget
        apply hmem
        refine List.mem_map.mpr ⟨j.toNat - lower_bound b x, ?_, ?_⟩
        · exact List.mem_range.mpr (by omega)
        · have : lower_bound b x + (j.toNat - lower_bound b x) = j.toNat := by omega
          rw [this]
          have : ((j.toNat : Nat) : Int) = j := by omega
          rw [this]
      · rw [if_neg hcond]

/-- A map-sum over a range in which only index i contributes equals that
single contribution. -/
theorem sum_map_range_eq_single (n : Nat) (g : Nat → Nat) (i : Nat)
    (hi : i < n) (h : ∀ x, x ≠ i → g x = 0) :
    ((List.range n).map g).sum = g i := by
  induction n with
  | zero => omega
  | succ m ih =>
    rw [List.range_succ, List.map_append, List.sum_append]
    simp only [List.map_cons, List.map_nil, List.sum_cons, List.sum_nil]
    rcases Nat.lt_or_ge i m with hlt | hge
    · rw [ih hlt, h m (by omega)]
      omega
    · have hieq : i = m := by omega
      subst hieq
      have hz : ((List.range i).map g).sum = 0 := by
        apply List.sum_eq_zero
        intro y hy
        rcases List.mem_map.mp hy with ⟨r, hr, rfl⟩
        exact h r (by have := List.mem_range.mp hr; omega)
      rw [hz]
      omega

/-- C5.  In the left join over sorted inputs, every probe-side row index i
appears: its total multiplicity is its match count k when k is positive and
one when k is zero; pairwise, with k zero the single pair carries the
sentinel -1 as its build-side index, and with k positive exactly the pairs
naming a build-side row equal to the probe value appear, once per matching
build-side index, while the sentinel does not appear for that row. -/
theorem left_join_spec (a b : List Int)
    (hb : b.Sorted (fun x y => x ≤ y)) (i : Nat) (hi : i < a.length) :
    ((left_join a b).countP (fun p => decide (p.1 = i)) =
       max (b.countP (fun y => decide (y = a.getD i 0))) 1) ∧
    (∀ j : Int, (left_join a b).count (i, j) =
       if b.countP (fun y => decide (y = a.getD i 0)) = 0 then
         (if j = -1 then 1 else 0)
       else
         (if 0 ≤ j ∧ j.toNat < b.length ∧ b.getD j.toNat 0 = a.getD i 0
          then 1 else 0)) := by
  constructor
  · rw [left_join_eq_flatMap, List.countP_flatMap]
    have hz : ∀ x, x ≠ i →
        (List.countP (fun p => decide (p.1 = i)) ∘
          fun r => left_seg b (a.getD r 0) r) x = 0 := by
      intro x hx
      simp only [Function.comp]
      rw [List.countP_eq_zero]
      intro p hp habs
      have hfst := left_seg_fst b (a.getD x 0) x p hp
      simp only [decide_eq_true_eq] at habs
      exact hx (hfst.symm.trans habs)
    rw [sum_map_range_eq_single a.length _ i hi hz]
    simp only [Function.comp]
    rw [List.countP_eq_length.mpr ?_, left_seg_length]
    intro p hp
    simp only [decide_eq_true_eq]
    exact left_seg_fst b (a.getD i 0) i p hp
  · intro j
    rw [left_join_eq_flatMap, List.count_flatMap]
    have hz : ∀ x, x ≠ i →
        (List.count (i, j) ∘ fun r => left_seg b (a.getD r 0) r) x = 0 := by
      intro x hx
      simp only [Function.comp]
      apply List.count_eq_zero_of_not_mem
      intro hmem
      have hfst := left_seg_fst b (a.getD x 0) x (i, j) hmem
      exact hx hfst.symm
    rw [sum_map_range_eq_single a.length _ i hi hz]
    simp only [Function.comp]
    exact count_left_seg b hb (a.getD i 0) i j

/-- C5, witness: joining a = [5, 7] with the sorted b = [5, 5, 6] yields
the pairs (0, 0), (0, 1) for the doubly-matched row 0 and the sentinel pair
(1, -1) for the unmatched row 7, and the multiplicity conjuncts of the
theorem hold at row 0 and pair (0, 0). -/
theorem left_join_spec_witness :
    left_join [5, 7] [5, 5, 6] = [(0, 0), (0, 1), (1, -1)] ∧
    (left_join [5, 7] [5, 5, 6]).countP (fun p => decide (p.1 = 0)) =
      max (([5, 5, 6] : List Int).countP
        (fun y => decide (y = ([5, 7] : List Int).getD 0 0))) 1 ∧
    (left_join [5, 7] [5, 5, 6]).count (0, (0 : Int)) =
      (if ([5, 5, 6] : List Int).countP
          (fun y => decide (y = ([5, 7] : List Int).getD 0 0)) = 0 then
        (if (0 : Int) = -1 then 1 else 0)
      else
        (if 0 ≤ (0 : Int) ∧ (0 : Int).toNat < ([5, 5, 6] : List Int).length ∧
            ([5, 5, 6] : List Int).getD (0 : Int).toNat 0 =
              ([5, 7] : List Int).getD 0 0
         then 1 else 0)) :=
  ⟨by decide,
   (left_join_spec [5, 7] [5, 5, 6] (by decide) 0 (by decide)).1,
   (left_join_spec [5, 7] [5, 5, 6] (by decide) 0 (by decide)).2 0⟩
